import Mathlib

/-!
Verification of the descriptor → documentation-model transformation of
protoc-gen-doc (`template.go`).

Go strings are modelled as lists of characters (`Str`).  All string data
appearing in descriptors and in the recognised directive tags is ASCII, where
Go's byte-wise view of a string and the character view coincide, so Go's
byte-wise string operations (comparison, substring search, prefix/suffix
tests) are modelled by the corresponding character-wise operations.
-/

namespace Gendoc

/-- Go `string`, modelled as a list of characters. -/
abbrev Str := List Char

/-- Embed a Lean string literal into the model type. -/
def str (s : String) : Str := s.toList

/-- Go's strict lexicographic order `<` on strings (byte-wise; here
character-wise, which agrees on ASCII). -/
def strLt : Str → Str → Bool
  | [], [] => false
  | [], _ :: _ => true
  | _ :: _, [] => false
  | a :: as, b :: bs => if a < b then true else if b < a then false else strLt as bs

/-- `strings.Contains` / `strings.Index`: index of the first occurrence of
`pat` in the scanned string (`Index` returns 0 for an empty pattern). -/
def firstIdxAux (pat : Str) : Str → Option Nat
  | [] => if pat = [] then some 0 else none
  | c :: rest =>
      if pat.isPrefixOf (c :: rest) then some 0
      else (firstIdxAux pat rest).map (· + 1)

/-- Go `strings.Index s pat` (with `none` for Go's `-1`). -/
def firstIdx (s pat : Str) : Option Nat := firstIdxAux pat s

/-- Go `strings.Contains`. -/
def strContains (s pat : Str) : Bool := (firstIdx s pat).isSome

/-- Fuelled worker for `replaceAll`; the fuel is the length of the scanned
string, which suffices because every step consumes at least one character. -/
def replaceAllFuel (pat rep : Str) : Nat → Str → Str
  | 0, s => s
  | _ + 1, [] => []
  | fuel + 1, c :: rest =>
      if pat ≠ [] ∧ pat.isPrefixOf (c :: rest) then
        rep ++ replaceAllFuel pat rep fuel ((c :: rest).drop pat.length)
      else
        c :: replaceAllFuel pat rep fuel rest

/-- Go `strings.ReplaceAll s pat rep`: replaces the non-overlapping
occurrences of `pat` left to right, never rescanning the replacement text.
(The program only ever calls it with a non-empty pattern.) -/
def replaceAll (s pat rep : Str) : Str := replaceAllFuel pat rep s.length s

/-- Go `strings.TrimPrefix`. -/
def trimPref (s pre : Str) : Str := if pre.isPrefixOf s then s.drop pre.length else s

/-- Go `strings.ToLower` (ASCII). -/
def toLowerStr (s : Str) : Str := s.map Char.toLower

/-- The characters `unicode.IsSpace` recognises within ASCII: space, `\t`,
`\n`, `\v`, `\f`, `\r`. -/
def isSpaceCh (c : Char) : Bool :=
  c = ' ' ∨ c = Char.ofNat 9 ∨ c = Char.ofNat 10 ∨ c = Char.ofNat 11 ∨
  c = Char.ofNat 12 ∨ c = Char.ofNat 13

/-- Go `strings.TrimSpace`. -/
def trimSpace (s : Str) : Str :=
  ((s.dropWhile isSpaceCh).reverse.dropWhile isSpaceCh).reverse

/-- Go `strings.Split(name, ".")` followed by taking the last part
(`baseName` in `template.go`). -/
def baseName (name : Str) : Str := (name.splitOn '.').getLastD []

/-! ## Option values and option merging (`mergeOptions`, `extractOptions`) -/

/-- A value stored in an option map (`interface\x7b\x7d` in Go).  The program
only ever stores booleans (the deprecation flag and extension-supplied
booleans) and strings (the idempotency level and extension-supplied text). -/
inductive OptVal where
  | boolV (b : Bool)
  | strV (s : Str)
deriving DecidableEq

/-- A Go `map[string]interface\x7b\x7d`, modelled as an association list in
which every key occurs at most once (Go map iteration visits each key once;
lookup takes the first binding). -/
abbrev OptMap := List (Str × OptVal)

/-- Lookup in an option map: the first binding of the key wins. -/
def lookupKey : OptMap → Str → Option OptVal
  | [], _ => none
  | (k', v) :: rest, k => if k' = k then some v else lookupKey rest k

/-- One step of `mergeOptions`: insert `(k, v)` into the accumulator unless
the key is already defined (`if _, ok := out[k]; ok \x7b continue \x7d`). -/
def mergeInsert (out : OptMap) (k : Str) (v : OptVal) : OptMap :=
  if (lookupKey out k).isSome then out else out ++ [(k, v)]

/-- `mergeOptions` of `template.go`: fold the option sources in priority
order, first writer per key wins; an entirely empty result is returned as
Go's `nil` map, modelled by `none`. -/
def mergeOptions (maps : List OptMap) : Option OptMap :=
  let out := maps.foldl (fun out m => m.foldl (fun o kv => mergeInsert o kv.1 kv.2) out) []
  if out = [] then none else some out

/-- `extractOptions` of `template.go` for every descriptor kind except
methods: the only recognised declared option is the deprecation flag. -/
def extractOptions (deprecated : Bool) : OptMap :=
  if deprecated then [(str ("deprecated"), OptVal.boolV true)] else []

/-- The `descriptor.MethodOptions_IdempotencyLevel` enumeration. -/
inductive IdemLevel where
  | idempotencyUnknown
  | noSideEffects
  | idempotent
deriving DecidableEq

/-- `IdempotencyLevel.String()`. -/
def idemName : IdemLevel → Str
  | .idempotencyUnknown => str ("IDEMPOTENCY_UNKNOWN")
  | .noSideEffects => str ("NO_SIDE_EFFECTS")
  | .idempotent => str ("IDEMPOTENT")

/-- `extractOptions` for a method: deprecation flag plus, when the options
carry an idempotency level, its textual name. -/
def extractOptionsMethod (deprecated : Bool) (idem : Option IdemLevel) : OptMap :=
  extractOptions deprecated ++
    (match idem with
     | some l => [(str ("idempotency_level"), OptVal.strV (idemName l))]
     | none => [])

/-! ## The directive extractor (`Directive` and its accessors) -/

/-- `Directive` of `template.go`: the shared description buffer plus the
three cache fields.  (The field is spelled `Descrition` in the source.) -/
structure Directive where
  descrition : Str
  action : Str
  version : Str
  title : Str
deriving DecidableEq

/-- `(*Directive).Exclude`: re-scans the description on every call; when the
tag is found, every occurrence of `@exclude` is removed from the shared
buffer.  There is no cache field for this accessor. -/
def Directive.Exclude (d : Directive) : Bool × Directive :=
  let exclude := strContains d.descrition (str ("@exclude"))
  if exclude then
    (exclude, { d with descrition := replaceAll d.descrition (str ("@exclude")) [] })
  else
    (exclude, d)

/-- The first match of the line-oriented pattern `@tag.*` (the tag followed
by the rest of its line), as found by `regexp.FindAllString(..., -1)[0]`. -/
def findTagLine (tag s : Str) : Option Str :=
  (firstIdx s tag).map (fun i => (s.drop i).takeWhile (fun c => ¬ c = Char.ofNat 10))

/-- `(*Directive).Title`: returns the cache when it is non-empty; otherwise
scans for the first `@title.*` line, strips the tag from the matched line to
obtain the value, removes every occurrence of the matched line from the
shared buffer, trims the value and caches it. -/
def Directive.Title (d : Directive) : Str × Directive :=
  if d.title ≠ [] then (d.title, d)
  else
    match findTagLine (str ("@title")) d.descrition with
    | some m =>
        let t := trimSpace (replaceAll m (str ("@title")) [])
        (t, { d with descrition := replaceAll d.descrition m [], title := t })
    | none =>
        (trimSpace [], { d with title := trimSpace [] })

/-- `(*Directive).Action` (same shape as `Title` with the `@action` tag). -/
def Directive.Action (d : Directive) : Str × Directive :=
  if d.action ≠ [] then (d.action, d)
  else
    match findTagLine (str ("@action")) d.descrition with
    | some m =>
        let t := trimSpace (replaceAll m (str ("@action")) [])
        (t, { d with descrition := replaceAll d.descrition m [], action := t })
    | none =>
        (trimSpace [], { d with action := trimSpace [] })

/-- `(*Directive).Version` (same shape as `Title` with the `@version` tag). -/
def Directive.Version (d : Directive) : Str × Directive :=
  if d.version ≠ [] then (d.version, d)
  else
    match findTagLine (str ("@version")) d.descrition with
    | some m =>
        let t := trimSpace (replaceAll m (str ("@version")) [])
        (t, { d with descrition := replaceAll d.descrition m [], version := t })
    | none =>
        (trimSpace [], { d with version := trimSpace [] })

/-! ## JSON re-indentation (`IndentJson`, `IndentJsonInComment`, `description`) -/

/-- The whitespace characters of the JSON scanner. -/
def jsonWsCh (c : Char) : Bool :=
  c = ' ' ∨ c = Char.ofNat 9 ∨ c = Char.ofNat 10 ∨ c = Char.ofNat 13

/-- Skip insignificant whitespace between JSON tokens. -/
def skipWs (s : Str) : Str := s.dropWhile jsonWsCh

def isDigitCh (c : Char) : Bool := decide (('0' : Char) ≤ c) ∧ decide (c ≤ ('9' : Char))

def isHexCh (c : Char) : Bool :=
  isDigitCh c ∨ (decide (('a' : Char) ≤ c) ∧ decide (c ≤ ('f' : Char))) ∨
    (decide (('A' : Char) ≤ c) ∧ decide (c ≤ ('F' : Char)))

/-- Scan the body of a JSON string (the input starts right after the opening
quote); returns the raw body and the remainder after the closing quote.
Control characters are rejected and only the JSON escapes are accepted, as in
Go's scanner. -/
def scanStrBody : Nat → Str → Option (Str × Str)
  | 0, _ => none
  | _ + 1, [] => none
  | fuel + 1, c :: rest =>
      if c = Char.ofNat 34 then some ([], rest)
      else if c = Char.ofNat 92 then
        match rest with
        | [] => none
        | e :: rest2 =>
            if e = 'u' then
              match rest2 with
              | h1 :: h2 :: h3 :: h4 :: rest3 =>
                  if isHexCh h1 ∧ isHexCh h2 ∧ isHexCh h3 ∧ isHexCh h4 then
                    (scanStrBody fuel rest3).map
                      (fun p => (c :: e :: h1 :: h2 :: h3 :: h4 :: p.1, p.2))
                  else none
              | _ => none
            else if e = Char.ofNat 34 ∨ e = Char.ofNat 92 ∨ e = '/' ∨ e = 'b' ∨
                e = 'f' ∨ e = 'n' ∨ e = 'r' ∨ e = 't' then
              (scanStrBody fuel rest2).map (fun p => (c :: e :: p.1, p.2))
            else none
      else if c.toNat < 32 then none
      else (scanStrBody fuel rest).map (fun p => (c :: p.1, p.2))

/-- Scan an optional JSON fraction part. -/
def scanFrac (s : Str) : Option (Str × Str) :=
  match s with
  | c :: r =>
      if c = '.' then
        let ds := r.takeWhile isDigitCh
        if ds = [] then none else some (c :: ds, r.dropWhile isDigitCh)
      else some ([], s)
  | [] => some ([], [])

/-- Scan an optional JSON exponent part. -/
def scanExp (s : Str) : Option (Str × Str) :=
  match s with
  | c :: r =>
      if c = 'e' ∨ c = 'E' then
        let sgnStep : Str × Str :=
          match r with
          | c2 :: r2 => if c2 = '+' ∨ c2 = '-' then ([c2], r2) else ([], r)
          | [] => ([], [])
        let ds := sgnStep.2.takeWhile isDigitCh
        if ds = [] then none
        else some (c :: sgnStep.1 ++ ds, sgnStep.2.dropWhile isDigitCh)
      else some ([], s)
  | [] => some ([], [])

/-- Scan a JSON number token (returned verbatim, as Go's `Indent` copies the
original bytes of literal tokens). -/
def scanNumber (s : Str) : Option (Str × Str) :=
  let negStep : Str × Str :=
    match s with
    | c :: r => if c = '-' then ([c], r) else ([], s)
    | [] => ([], [])
  match negStep.2 with
  | [] => none
  | c :: r =>
      let intStep : Option (Str × Str) :=
        if c = '0' then some (negStep.1 ++ [c], r)
        else if isDigitCh c then
          some (negStep.1 ++ c :: r.takeWhile isDigitCh, r.dropWhile isDigitCh)
        else none
      match intStep with
      | none => none
      | some (ip, r1) =>
          match scanFrac r1 with
          | none => none
          | some (fp, r2) =>
              match scanExp r2 with
              | none => none
              | some (ep, r3) => some (ip ++ fp ++ ep, r3)

/-- A newline followed by the current indentation, as written by
`json.Indent` with empty prefix and a two-space indent. -/
def nlIndent (depth : Nat) : Str := Char.ofNat 10 :: List.replicate (2 * depth) ' '

/-- Parsing modes of the JSON indenter: a value, the members of an object
(after its opening brace and leading whitespace), or the elements of an
array. -/
inductive JMode where
  | value
  | members
  | elems

/-- Models Go's `encoding/json.Indent` (scanner plus on-the-fly indenting)
on a single JSON value: returns the re-indented text of the value and the
unconsumed remainder, or `none` when the text is not valid JSON.  Literal
tokens (strings, numbers, `true`/`false`/`null`) are copied verbatim;
compound values get Go's newline-and-indent layout, with empty objects and
arrays rendered as `\x7b\x7d` and `[]`. -/
def jsonP : Nat → JMode → Nat → Str → Option (Str × Str)
  | 0, _, _, _ => none
  | fuel + 1, .value, depth, s =>
      match s with
      | [] => none
      | c :: rest =>
          if c = Char.ofNat 34 then
            (scanStrBody (rest.length + 1) rest).map
              (fun p => (Char.ofNat 34 :: p.1 ++ [Char.ofNat 34], p.2))
          else if c = '-' ∨ isDigitCh c then scanNumber (c :: rest)
          else if c = 't' then
            if (str ("rue")).isPrefixOf rest then some (str ("true"), rest.drop 3) else none
          else if c = 'f' then
            if (str ("alse")).isPrefixOf rest then some (str ("false"), rest.drop 4) else none
          else if c = 'n' then
            if (str ("ull")).isPrefixOf rest then some (str ("null"), rest.drop 3) else none
          else if c = Char.ofNat 123 then
            match skipWs rest with
            | [] => none
            | c2 :: r2 =>
                if c2 = Char.ofNat 125 then some ([Char.ofNat 123, Char.ofNat 125], r2)
                else
                  (jsonP fuel .members (depth + 1) (c2 :: r2)).map
                    (fun p => (Char.ofNat 123 ::
                      (nlIndent (depth + 1) ++ p.1 ++ nlIndent depth ++ [Char.ofNat 125]), p.2))
          else if c = '[' then
            match skipWs rest with
            | [] => none
            | c2 :: r2 =>
                if c2 = ']' then some (str ("[]"), r2)
                else
                  (jsonP fuel .elems (depth + 1) (c2 :: r2)).map
                    (fun p => ('[' :: (nlIndent (depth + 1) ++ p.1 ++ nlIndent depth ++ [']']),
                      p.2))
          else none
  | fuel + 1, .members, depth, s =>
      match s with
      | [] => none
      | c :: rest =>
          if ¬ c = Char.ofNat 34 then none
          else
            match scanStrBody (rest.length + 1) rest with
            | none => none
            | some (body, r2) =>
                match skipWs r2 with
                | [] => none
                | c3 :: r3 =>
                    if ¬ c3 = ':' then none
                    else
                      match jsonP fuel .value depth (skipWs r3) with
                      | none => none
                      | some (vout, r4) =>
                          let key := Char.ofNat 34 :: body ++ [Char.ofNat 34]
                          match skipWs r4 with
                          | [] => none
                          | c5 :: r5 =>
                              if c5 = ',' then
                                (jsonP fuel .members depth (skipWs r5)).map
                                  (fun p => (key ++ str (": ") ++ vout ++ [','] ++
                                    nlIndent depth ++ p.1, p.2))
                              else if c5 = Char.ofNat 125 then
                                some (key ++ str (": ") ++ vout, r5)
                              else none
  | fuel + 1, .elems, depth, s =>
      match jsonP fuel .value depth s with
      | none => none
      | some (vout, r1) =>
          match skipWs r1 with
          | [] => none
          | c2 :: r2 =>
              if c2 = ',' then
                (jsonP fuel .elems depth (skipWs r2)).map
                  (fun p => (vout ++ [','] ++ nlIndent depth ++ p.1, p.2))
              else if c2 = ']' then some (vout, r2)
              else none

/-- Models `json.Indent(&buf, in, "", "  ")`: a single JSON value with
optional surrounding whitespace; `none` models the error return. -/
def jsonIndentCore (s : Str) : Option Str :=
  match jsonP (2 * s.length + 2) .value 0 (skipWs s) with
  | some (out, rest) => if skipWs rest = [] then some out else none
  | none => none

/-- `IndentJson` of `template.go`: the input is returned unchanged when
`json.Indent` reports an error. -/
def IndentJson (s : Str) : Str :=
  match jsonIndentCore s with
  | some out => out
  | none => s

/-- The loop of `IndentJsonInComment`, fuelled (one unit per iteration; each
iteration consumes at least the begin tag from the scanned text, so the
initial fuel of `length + 1` is never exhausted).  Arguments: fuel, the
original comment (returned when a begin tag has no matching end tag), the
accumulated output `res`, and the text still to be scanned. -/
def indentLoop (btag etag : Str) : Nat → Str → Str → Str → Str
  | 0, origin, _, _ => origin
  | fuel + 1, origin, res, comment =>
      match firstIdx comment btag with
      | some i =>
          if 0 < i then
            match firstIdx (comment.drop (i + btag.length)) etag with
            | none => origin
            | some j =>
                indentLoop btag etag fuel origin
                  (res ++ comment.take i ++ btag ++ str ("\n") ++
                    IndentJson ((comment.drop (i + btag.length)).take j) ++ etag)
                  ((comment.drop (i + btag.length)).drop (j + etag.length))
          else if res = [] then comment else res ++ comment
      | none => if res = [] then comment else res ++ comment

/-- `IndentJsonInComment` of `template.go`: rewrites every fenced segment
`btag … etag` whose opening fence starts at a positive index, inserting a
newline before the (re-indented) segment; a fence without a closing tag
returns the whole original comment. -/
def IndentJsonInComment (comment btag etag : Str) : Str :=
  indentLoop btag etag (comment.length + 1) comment [] comment

/-- The characters trimmed from the front of a comment by `description`. -/
def commentTrimSet (c : Char) : Bool :=
  c = '*' ∨ c = '/' ∨ c = Char.ofNat 10 ∨ c = ' '

/-- `description` of `template.go`. -/
def description (comment : Str) : Str :=
  IndentJsonInComment (comment.dropWhile commentTrimSet) (str ("```json")) (str ("```"))

/-! ## Label and type resolution (`labelName`, `parseType`) -/

/-- `descriptor.FieldDescriptorProto_Label`. -/
inductive ProtoLabel where
  | loptional
  | lrequired
  | lrepeated
deriving DecidableEq

/-- `FieldDescriptorProto_Label.String()`. -/
def labelString : ProtoLabel → Str
  | .loptional => str ("LABEL_OPTIONAL")
  | .lrequired => str ("LABEL_REQUIRED")
  | .lrepeated => str ("LABEL_REPEATED")

/-- `labelName` of `template.go`. -/
def labelName (lbl : ProtoLabel) (proto3 proto3Opt : Bool) : Str :=
  if proto3 = true ∧ proto3Opt = false ∧ ¬ lbl = .lrepeated then []
  else toLowerStr (trimPref (labelString lbl) (str ("LABEL_")))

/-- `descriptor.FieldDescriptorProto_Type`. -/
inductive ProtoType where
  | tdouble | tfloat | tint64 | tuint64 | tint32 | tfixed64 | tfixed32 | tbool
  | tstring | tgroup | tmessage | tbytes | tuint32 | tenum | tsfixed32
  | tsfixed64 | tsint32 | tsint64
deriving DecidableEq

/-- `FieldDescriptorProto_Type.String()`. -/
def protoTypeName : ProtoType → Str
  | .tdouble => str ("TYPE_DOUBLE")
  | .tfloat => str ("TYPE_FLOAT")
  | .tint64 => str ("TYPE_INT64")
  | .tuint64 => str ("TYPE_UINT64")
  | .tint32 => str ("TYPE_INT32")
  | .tfixed64 => str ("TYPE_FIXED64")
  | .tfixed32 => str ("TYPE_FIXED32")
  | .tbool => str ("TYPE_BOOL")
  | .tstring => str ("TYPE_STRING")
  | .tgroup => str ("TYPE_GROUP")
  | .tmessage => str ("TYPE_MESSAGE")
  | .tbytes => str ("TYPE_BYTES")
  | .tuint32 => str ("TYPE_UINT32")
  | .tenum => str ("TYPE_ENUM")
  | .tsfixed32 => str ("TYPE_SFIXED32")
  | .tsfixed64 => str ("TYPE_SFIXED64")
  | .tsint32 => str ("TYPE_SINT32")
  | .tsint64 => str ("TYPE_SINT64")

/-- `parseType` of `template.go`, applied to a type container exposing the
raw type name, the owning file's package and the primitive type tag; returns
(short, long, full) type names. -/
def parseType (typeName pkg : Str) (t : ProtoType) : Str × Str × Str :=
  if (str (".")).isPrefixOf typeName then
    let name := trimPref typeName (str ("."))
    (baseName name, trimPref name (pkg ++ str (".")), name)
  else
    let name := toLowerStr (trimPref (protoTypeName t) (str ("TYPE_")))
    (name, name, name)

/-! ## The documentation model records -/

structure EnumValue where
  name : Str
  number : Str
  description : Str
  options : Option OptMap
deriving DecidableEq

structure Enum where
  name : Str
  longName : Str
  fullName : Str
  description : Str
  values : List EnumValue
  exclude : Bool
  options : Option OptMap
deriving DecidableEq

structure FileExtension where
  name : Str
  longName : Str
  fullName : Str
  description : Str
  label : Str
  type : Str
  longType : Str
  fullType : Str
  number : Int
  defaultValue : Str
  containingType : Str
  containingLongType : Str
  containingFullType : Str
deriving DecidableEq

structure MessageExtension where
  fileExtension : FileExtension
  scopeType : Str
  scopeLongType : Str
  scopeFullType : Str
deriving DecidableEq

structure MessageField where
  name : Str
  description : Str
  label : Str
  type : Str
  longType : Str
  fullType : Str
  isMap : Bool
  isOneof : Bool
  oneofDecl : Str
  defaultValue : Str
  required : Bool
  options : Option OptMap
deriving DecidableEq

structure Message where
  name : Str
  longName : Str
  fullName : Str
  description : Str
  hasExtensions : Bool
  hasFields : Bool
  hasOneofs : Bool
  extensions : List MessageExtension
  fields : List MessageField
  exclude : Bool
  options : Option OptMap
deriving DecidableEq

structure ServiceMethod where
  name : Str
  description : Str
  requestType : Str
  requestLongType : Str
  requestFullType : Str
  requestStreaming : Bool
  responseType : Str
  responseLongType : Str
  responseFullType : Str
  responseStreaming : Bool
  title : Str
  action : Str
  version : Str
  exclude : Bool
  options : Option OptMap
deriving DecidableEq

structure Service where
  name : Str
  longName : Str
  fullName : Str
  description : Str
  methods : List ServiceMethod
  title : Str
  exclude : Bool
  options : Option OptMap
deriving DecidableEq

structure ScalarValue where
  protoType : Str
  notes : Str
  cppType : Str
  csType : Str
  goType : Str
  javaType : Str
  phpType : Str
  pythonType : Str
  rubyType : Str
deriving DecidableEq

structure File where
  name : Str
  description : Str
  pkg : Str
  hasEnums : Bool
  hasExtensions : Bool
  hasMessages : Bool
  hasServices : Bool
  enums : List Enum
  extensions : List FileExtension
  messages : List Message
  services : List Service
  options : Option OptMap
deriving DecidableEq

structure Template where
  files : List File
  scalars : Option (List ScalarValue)
deriving DecidableEq

/-! ## The protokit descriptor input model

The protokit wrappers feeding `template.go` expose, for every entity, its
name, its long name (the fully-qualified name with the file's package prefix
removed, nested types joined by dots), its full name, its leading comments,
its declared options and its already-transformed custom-extension options
(`extensions.Transform` is an external collaborator and its result is taken
as input).  Those are plain data here. -/

structure EnumValueDescriptor where
  name : Str
  number : Int
  comments : Str
  deprecated : Bool
  optionExtensions : OptMap
deriving DecidableEq

structure EnumDescriptor where
  name : Str
  longName : Str
  fullName : Str
  comments : Str
  values : List EnumValueDescriptor
  deprecated : Bool
  optionExtensions : OptMap
deriving DecidableEq

structure FieldDescriptor where
  name : Str
  typeName : Str
  pkg : Str
  ptype : ProtoType
  plabel : ProtoLabel
  isProto3 : Bool
  proto3Optional : Bool
  defaultValue : Str
  comments : Str
  oneofIndex : Option Nat
  deprecated : Bool
  optionExtensions : OptMap
deriving DecidableEq

structure ExtensionDescriptor where
  name : Str
  longName : Str
  fullName : Str
  comments : Str
  typeName : Str
  pkg : Str
  ptype : ProtoType
  plabel : ProtoLabel
  isProto3 : Bool
  proto3Optional : Bool
  number : Int
  defaultValue : Str
  extendee : Str
  parentName : Str
  parentLongName : Str
  parentFullName : Str
deriving DecidableEq

/-- `protokit.Descriptor` (a message): a nested tree. -/
inductive MsgDescriptor where
  | mk (name longName fullName comments : Str)
      (fields : List FieldDescriptor)
      (extensions : List ExtensionDescriptor)
      (oneofDecls : List Str)
      (deprecated : Bool)
      (optionExtensions : OptMap)
      (enums : List EnumDescriptor)
      (messages : List MsgDescriptor)

def MsgDescriptor.name : MsgDescriptor → Str
  | .mk n _ _ _ _ _ _ _ _ _ _ => n

def MsgDescriptor.longName : MsgDescriptor → Str
  | .mk _ ln _ _ _ _ _ _ _ _ _ => ln

def MsgDescriptor.fullName : MsgDescriptor → Str
  | .mk _ _ fn _ _ _ _ _ _ _ _ => fn

def MsgDescriptor.comments : MsgDescriptor → Str
  | .mk _ _ _ c _ _ _ _ _ _ _ => c

def MsgDescriptor.fields : MsgDescriptor → List FieldDescriptor
  | .mk _ _ _ _ fs _ _ _ _ _ _ => fs

def MsgDescriptor.extensions : MsgDescriptor → List ExtensionDescriptor
  | .mk _ _ _ _ _ exts _ _ _ _ _ => exts

def MsgDescriptor.oneofDecls : MsgDescriptor → List Str
  | .mk _ _ _ _ _ _ oo _ _ _ _ => oo

def MsgDescriptor.deprecated : MsgDescriptor → Bool
  | .mk _ _ _ _ _ _ _ dep _ _ _ => dep

def MsgDescriptor.optionExtensions : MsgDescriptor → OptMap
  | .mk _ _ _ _ _ _ _ _ oe _ _ => oe

def MsgDescriptor.enums : MsgDescriptor → List EnumDescriptor
  | .mk _ _ _ _ _ _ _ _ _ ens _ => ens

def MsgDescriptor.messages : MsgDescriptor → List MsgDescriptor
  | .mk _ _ _ _ _ _ _ _ _ _ msgs => msgs

structure MethodDescriptor where
  name : Str
  comments : Str
  inputType : Str
  outputType : Str
  pkg : Str
  clientStreaming : Bool
  serverStreaming : Bool
  deprecated : Bool
  idempotencyLevel : Option IdemLevel
  optionExtensions : OptMap
deriving DecidableEq

structure ServiceDescriptor where
  name : Str
  longName : Str
  fullName : Str
  comments : Str
  methods : List MethodDescriptor
  deprecated : Bool
  optionExtensions : OptMap
deriving DecidableEq

structure FileDescriptor where
  name : Str
  pkg : Str
  syntaxComments : Str
  enums : List EnumDescriptor
  extensions : List ExtensionDescriptor
  messages : List MsgDescriptor
  services : List ServiceDescriptor
  deprecated : Bool
  optionExtensions : OptMap

/-! ## Entity parsers -/

/-- `fmt.Sprint` of an integer. -/
def intToStr (n : Int) : Str := (toString n).toList

def parseEnumValue (val : EnumValueDescriptor) : EnumValue :=
  { name := val.name
    number := intToStr val.number
    description := description val.comments
    options := mergeOptions [extractOptions val.deprecated, val.optionExtensions] }

/-- `parseEnum` of `template.go`; as in the Go composite literal, `Exclude`
is extracted before the mutated description is read. -/
def parseEnum (pe : EnumDescriptor) : Enum :=
  let desc := description pe.comments
  let exD := (⟨desc, [], [], []⟩ : Directive).Exclude
  { name := pe.name
    longName := pe.longName
    fullName := pe.fullName
    exclude := exD.1
    description := exD.2.descrition
    values := pe.values.map parseEnumValue
    options := mergeOptions [extractOptions pe.deprecated, pe.optionExtensions] }

def parseFileExtension (pe : ExtensionDescriptor) : FileExtension :=
  let tlf := parseType pe.typeName pe.pkg pe.ptype
  { name := pe.name
    longName := pe.longName
    fullName := pe.fullName
    description := description pe.comments
    label := labelName pe.plabel pe.isProto3 pe.proto3Optional
    type := tlf.1
    longType := tlf.2.1
    fullType := tlf.2.2
    number := pe.number
    defaultValue := pe.defaultValue
    containingType := baseName pe.extendee
    containingLongType := trimPref pe.extendee (str (".") ++ pe.pkg ++ str ("."))
    containingFullType := trimPref pe.extendee (str (".")) }

def parseMessageExtension (pe : ExtensionDescriptor) : MessageExtension :=
  { fileExtension := parseFileExtension pe
    scopeType := pe.parentName
    scopeLongType := pe.parentLongName
    scopeFullType := pe.parentFullName }

/-- `parseMessageField` of `template.go`: type resolution, `@required`
stripping, oneof resolution, option merging, and the map-entry check on the
already-built record. -/
def parseMessageField (pf : FieldDescriptor) (oneofDecls : List Str) : MessageField :=
  let tlf := parseType pf.typeName pf.pkg pf.ptype
  let desc0 := description pf.comments
  let required := strContains desc0 (str ("@required"))
  let desc := replaceAll desc0 (str ("@required")) []
  let isOneof := pf.oneofIndex.isSome
  let m : MessageField :=
    { name := pf.name
      description := desc
      label := labelName pf.plabel pf.isProto3 pf.proto3Optional
      type := tlf.1
      longType := tlf.2.1
      fullType := tlf.2.2
      isMap := false
      isOneof := isOneof
      oneofDecl := if isOneof then (oneofDecls[pf.oneofIndex.getD 0]?).getD [] else []
      defaultValue := pf.defaultValue
      required := required
      options := mergeOptions [extractOptions pf.deprecated, pf.optionExtensions] }
  if m.label = str ("repeated") ∧ strContains m.longType (str (".")) = true ∧
      (str ("Entry")).isSuffixOf m.type = true ∧
      (str ("Entry")).isSuffixOf m.longType = true ∧
      (str ("Entry")).isSuffixOf m.fullType = true then
    { m with isMap := true }
  else m

/-- `parseMessage` of `template.go`. -/
def parseMessage (pm : MsgDescriptor) : Message :=
  let desc := description pm.comments
  let exD := (⟨desc, [], [], []⟩ : Directive).Exclude
  { name := pm.name
    longName := pm.longName
    fullName := pm.fullName
    exclude := exD.1
    description := exD.2.descrition
    hasExtensions := !pm.extensions.isEmpty
    hasFields := !pm.fields.isEmpty
    hasOneofs := !pm.oneofDecls.isEmpty
    extensions := pm.extensions.map parseMessageExtension
    fields := pm.fields.map (fun f => parseMessageField f pm.oneofDecls)
    options := mergeOptions [extractOptions pm.deprecated, pm.optionExtensions] }

/-- `parseServiceMethod` of `template.go`; the directive accessors run in
the order of the Go composite literal: `Action`, `Version`, `Title`,
`Exclude`, and the final description is read afterwards. -/
def parseServiceMethod (pm : MethodDescriptor) : ServiceMethod :=
  let desc := description pm.comments
  let aD := (⟨desc, [], [], []⟩ : Directive).Action
  let vD := aD.2.Version
  let tD := vD.2.Title
  let eD := tD.2.Exclude
  { name := pm.name
    requestType := baseName pm.inputType
    requestLongType := trimPref pm.inputType (str (".") ++ pm.pkg ++ str ("."))
    requestFullType := trimPref pm.inputType (str ("."))
    requestStreaming := pm.clientStreaming
    responseType := baseName pm.outputType
    responseLongType := trimPref pm.outputType (str (".") ++ pm.pkg ++ str ("."))
    responseFullType := trimPref pm.outputType (str ("."))
    responseStreaming := pm.serverStreaming
    action := aD.1
    version := vD.1
    title := tD.1
    exclude := eD.1
    options := mergeOptions [extractOptionsMethod pm.deprecated pm.idempotencyLevel,
      pm.optionExtensions]
    description := eD.2.descrition }

/-- `parseService` of `template.go`; `Title` runs before `Exclude`, then the
description is read. -/
def parseService (ps : ServiceDescriptor) : Service :=
  let desc := description ps.comments
  let tD := (⟨desc, [], [], []⟩ : Directive).Title
  let eD := tD.2.Exclude
  { name := ps.name
    longName := ps.longName
    fullName := ps.fullName
    title := tD.1
    exclude := eD.1
    options := mergeOptions [extractOptions ps.deprecated, ps.optionExtensions]
    description := eD.2.descrition
    methods := ps.methods.map parseServiceMethod }

/-! ## The tree walker (`addFromMessage` in `NewTemplate`) -/

mutual

/-- The body of the recursive closure `addFromMessage`: emit the message's
own record, then the records of its directly nested enums, then recurse into
its directly nested messages.  Returns the message and enum records this
subtree appends, in emission order. -/
def walkMessage : MsgDescriptor → List Message × List Enum
  | .mk n ln fn cm fs exts oo dep oe ens msgs =>
      let child := walkMessages msgs
      (parseMessage (.mk n ln fn cm fs exts oo dep oe ens msgs) :: child.1,
        ens.map parseEnum ++ child.2)

/-- `addFromMessage` over a list of sibling messages, in declaration
order. -/
def walkMessages : List MsgDescriptor → List Message × List Enum
  | [] => ([], [])
  | m :: rest =>
      let a := walkMessage m
      let b := walkMessages rest
      (a.1 ++ b.1, a.2 ++ b.2)

end

/-! ## The sort applied to the four top-level collections

`NewTemplate` sorts each collection with Go's `sort.Sort`, whose contract
promises a sorted result but explicitly not a stable one.  The model below
is the algorithm Go (up to 1.18) runs on every range of at most twelve
elements — a single gap-6 "ShellSort pass" followed by insertion sort — and
it is applied here uniformly at every length (Go's driver switches to
quicksort partitioning above twelve elements, which is likewise unstable).
Its result is sorted under the collection's `Less`, and keys that compare
equal do not in general keep their input order: the gap-6 pass can carry an
element past an equal one. -/

/-- One comparison/swap of the gap-6 pass: `if data.Less(i, i-6) \x7b
data.Swap(i, i-6) \x7d`. -/
def swapStep (key : α → Str) (l : List α) (i : Nat) : List α :=
  match l[i]?, l[i - 6]? with
  | some x, some y => if strLt (key x) (key y) then (l.set i y).set (i - 6) x else l
  | _, _ => l

/-- The gap-6 ShellSort pass (`for i := a + 6; i < b; i++ ...`). -/
def shellPass (key : α → Str) (l : List α) : List α :=
  (List.range' 6 (l.length - 6)).foldl (swapStep key) l

/-- Insertion of one element into the sorted prefix; the element sinks while
`Less` holds, so it lands after any element whose key compares equal. -/
def insGo (key : α → Str) (x : α) : List α → List α
  | [] => [x]
  | y :: ys => if strLt (key x) (key y) then x :: y :: ys else y :: insGo key x ys

/-- Go's `insertionSort`, in its functional reading: fold the slice left to
right, inserting each element into the sorted prefix. -/
def insSortGo (key : α → Str) (l : List α) : List α :=
  l.foldl (fun acc x => insGo key x acc) []

/-- The sort applied by `NewTemplate` to each collection (`sort.Sort` with a
`Less` comparing `LongName` with Go's `<`). -/
def goSortBy (key : α → Str) (l : List α) : List α := insSortGo key (shellPass key l)

/-! ## File assembly (`NewTemplate`, `makeScalars`) -/

/-- Modelled from the spec: `fetchResource("scalars.json")` (the embedded
resource read lives outside `template.go`) composed with `json.Unmarshal`
is abstracted as its outcome — the read may fail, the decode may fail, or a
list of scalar records is produced. -/
inductive ScalarResource where
  | fetchErr
  | decodeErr
  | ok (scalars : List ScalarValue)
deriving DecidableEq

/-- `makeScalars` of `template.go`: on either failure the error is printed
and a `nil` slice (here `none`) is returned; otherwise the decoded table. -/
def makeScalars : ScalarResource → Option (List ScalarValue)
  | .fetchErr => none
  | .decodeErr => none
  | .ok s => some s

/-- Whether `makeScalars` writes to the diagnostic channel
(`fmt.Println(err)`). -/
def scalarDiagnostic : ScalarResource → Bool
  | .fetchErr => true
  | .decodeErr => true
  | .ok _ => false

/-- The per-file body of `NewTemplate`: build the `File` shell, populate the
four collections (top-level enums, then extensions, then the recursive
message walk, then services), and sort each collection by long name. -/
def buildFile (f : FileDescriptor) : File :=
  let walked := walkMessages f.messages
  { name := f.name
    description := description f.syntaxComments
    pkg := f.pkg
    hasEnums := !f.enums.isEmpty
    hasExtensions := !f.extensions.isEmpty
    hasMessages := !f.messages.isEmpty
    hasServices := !f.services.isEmpty
    enums := goSortBy Enum.longName (f.enums.map parseEnum ++ walked.2)
    extensions := goSortBy FileExtension.longName (f.extensions.map parseFileExtension)
    messages := goSortBy Message.longName walked.1
    services := goSortBy Service.longName (f.services.map parseService)
    options := mergeOptions [extractOptions f.deprecated, f.optionExtensions] }

/-- `NewTemplate` of `template.go`, parameterised by the scalar-resource
outcome. -/
def NewTemplate (descs : List FileDescriptor) (res : ScalarResource) : Template :=
  { files := descs.map buildFile, scalars := makeScalars res }

/-! ## Specification-side definitions and concrete example descriptors

The remaining definitions are claim-side: comparison predicates, the
claims' traversal-order specification, and the concrete descriptors the
claims' examples and witnesses evaluate. -/

/-- Left-biased choice on option-map lookups. -/
def optOr (a b : Option OptVal) : Option OptVal :=
  match a with
  | some v => some v
  | none => b

/-- The claim's reading of the merge: the value of a key is the one supplied
by the earliest map that defines it. -/
def firstDefined : List OptMap → Str → Option OptVal
  | [], _ => none
  | m :: rest, k => optOr (lookupKey m k) (firstDefined rest k)

/-- A synthesized map-entry field: repeated, with the compiler-generated
nested `...Entry` message as its type. -/
def mapEntryField : FieldDescriptor :=
  { name := str ("items")
    typeName := str (".pkg.M.ItemsEntry")
    pkg := str ("pkg")
    ptype := .tmessage
    plabel := .lrepeated
    isProto3 := true
    proto3Optional := false
    defaultValue := []
    comments := []
    oneofIndex := none
    deprecated := false
    optionExtensions := [] }

/-- An otherwise identical repeated field whose type does not end in
`Entry`. -/
def plainRepeatedField : FieldDescriptor :=
  { mapEntryField with typeName := str (".pkg.M.Items") }

/-- A proto3 scalar field in a file whose package is `com.example`; its type
resolves to the bare lowercase token `int32` at all three levels. -/
def scalarCountField : FieldDescriptor :=
  { name := str ("count")
    typeName := []
    pkg := str ("com.example")
    ptype := .tint32
    plabel := .loptional
    isProto3 := true
    proto3Optional := false
    defaultValue := []
    comments := []
    oneofIndex := none
    deprecated := false
    optionExtensions := [] }

/-- A service method whose request and response types live in the file's
package. -/
def methodTypesEx : MethodDescriptor :=
  { name := str ("Get")
    comments := []
    inputType := str (".pkg.Req")
    outputType := str (".pkg.Res")
    pkg := str ("pkg")
    clientStreaming := false
    serverStreaming := false
    deprecated := false
    idempotencyLevel := none
    optionExtensions := [] }

/-- A service whose comment is the round-trip example. -/
def roundtripService : ServiceDescriptor :=
  { name := str ("S")
    longName := str ("S")
    fullName := str ("p.S")
    comments := str ("Does X.\n@exclude\n@title Foo")
    methods := []
    deprecated := false
    optionExtensions := [] }

/-- A service method whose comment is the round-trip example. -/
def roundtripMethod : MethodDescriptor :=
  { name := str ("M")
    comments := str ("Does X.\n@exclude\n@title Foo")
    inputType := str (".p.A")
    outputType := str (".p.B")
    pkg := str ("p")
    clientStreaming := false
    serverStreaming := false
    deprecated := false
    idempotencyLevel := none
    optionExtensions := [] }

mutual

/-- The claim's traversal order: every message descriptor of the tree, depth
first, parent before children, siblings in declaration order. -/
def msgPreorder : MsgDescriptor → List MsgDescriptor
  | .mk n ln fn cm fs exts oo dep oe ens msgs =>
      .mk n ln fn cm fs exts oo dep oe ens msgs :: msgPreorderList msgs

def msgPreorderList : List MsgDescriptor → List MsgDescriptor
  | [] => []
  | m :: rest => msgPreorder m ++ msgPreorderList rest

end

/-- A message nested two levels deep (`Inner` inside `Outer`), with the
protokit-computed long names. -/
def innerMsgEx : MsgDescriptor :=
  .mk (str ("Inner")) (str ("Outer.Inner")) (str ("pkg.Outer.Inner")) []
    [] [] [] false [] [] []

def outerMsgEx : MsgDescriptor :=
  .mk (str ("Outer")) (str ("Outer")) (str ("pkg.Outer")) []
    [] [] [] false [] [] [innerMsgEx]

def nestedFileEx : FileDescriptor :=
  { name := str ("nested.proto")
    pkg := str ("pkg")
    syntaxComments := []
    enums := []
    extensions := []
    messages := [outerMsgEx]
    services := []
    deprecated := false
    optionExtensions := [] }

/-- Sorted non-decreasing by the key under Go's case-sensitive lexicographic
order: no later entry compares strictly below an earlier one. -/
def sortedByKey (key : α → Str) (l : List α) : Prop :=
  l.Pairwise (fun a b => strLt (key b) (key a) = false)

/-- A top-level message descriptor carrying only a name and a long name. -/
def sortMsg (nm ln : String) : MsgDescriptor :=
  .mk (str (nm)) (str (ln)) (str (ln)) [] [] [] [] false [] [] []

/-- Seven top-level messages declared in the order `C, A1, Z1, Z2, Z3, Z4,
A2`, where `A1` and `A2` share the long name `a`. -/
def sortFileEx : FileDescriptor :=
  { name := str ("s.proto")
    pkg := str ("p")
    syntaxComments := []
    enums := []
    extensions := []
    messages := [sortMsg ("C") ("c"), sortMsg ("A1") ("a"), sortMsg ("Z1") ("z1"),
      sortMsg ("Z2") ("z2"), sortMsg ("Z3") ("z3"), sortMsg ("Z4") ("z4"),
      sortMsg ("A2") ("a")]
    services := []
    deprecated := false
    optionExtensions := [] }

theorem strLt_asymm : ∀ {a b : Str}, strLt a b = true → strLt b a = false := by
  intro a
  induction a with
  | nil => intro b h; cases b <;> simp_all [strLt]
  | cons c as ih =>
      intro b h
      cases b with
      | nil => simp [strLt] at h
      | cons d bs =>
          simp only [strLt] at h ⊢
          by_cases hcd : c < d
          · have hdc : ¬ d < c := fun h2 => absurd (lt_trans hcd h2) (lt_irrefl c)
            simp [hcd, hdc]
          · by_cases hdc : d < c
            · simp [hcd, hdc] at h
            · simp only [hcd, hdc, if_false] at h ⊢
              exact ih h

theorem strLt_conn : ∀ {a b : Str}, strLt a b = false → strLt b a = false → a = b := by
  intro a
  induction a with
  | nil => intro b h1 _; cases b <;> simp_all [strLt]
  | cons c as ih =>
      intro b h1 h2
      cases b with
      | nil => simp [strLt] at h2
      | cons d bs =>
          simp only [strLt] at h1 h2
          by_cases hcd : c < d
          · simp [hcd] at h1
          · by_cases hdc : d < c
            · simp [hdc, hcd] at h2
            · have hce : c = d := le_antisymm (not_lt.mp hdc) (not_lt.mp hcd)
              simp only [hcd, hdc, if_false] at h1 h2
              rw [hce, ih h1 h2]

theorem strLt_trans : ∀ {a b c : Str}, strLt a b = true → strLt b c = true →
    strLt a c = true := by
  intro a
  induction a with
  | nil =>
      intro b c h1 h2
      cases b with
      | nil => simp [strLt] at h1
      | cons d bs => cases c with
        | nil => simp [strLt] at h2
        | cons e cs => simp [strLt]
  | cons x as ih =>
      intro b c h1 h2
      cases b with
      | nil => simp [strLt] at h1
      | cons y bs =>
          cases c with
          | nil => simp [strLt] at h2
          | cons z cs =>
              simp only [strLt] at h1 h2 ⊢
              by_cases hxy : x < y
              · by_cases hyz : y < z
                · simp [lt_trans hxy hyz]
                · by_cases hzy : z < y
                  · simp [hyz, hzy] at h2
                  · have : y = z := le_antisymm (not_lt.mp hzy) (not_lt.mp hyz)
                    subst this
                    simp [hxy]
              · by_cases hyx : y < x
                · simp [hxy, hyx] at h1
                · have hce : x = y := le_antisymm (not_lt.mp hyx) (not_lt.mp hxy)
                  subst hce
                  simp only [lt_irrefl, if_false] at h1
                  by_cases hyz : x < z
                  · simp [hyz]
                  · by_cases hzy : z < x
                    · simp [hyz, hzy] at h2
                    · simp only [hyz, hzy, if_false] at h2 ⊢
                      exact ih h1 h2

/-! ## Claim C3: option merging -/

theorem optOr_none (a : Option OptVal) : optOr a none = a := by
  cases a <;> rfl

theorem optOr_assoc (a b c : Option OptVal) :
    optOr (optOr a b) c = optOr a (optOr b c) := by
  cases a <;> rfl

theorem lookupKey_append_single (out : OptMap) (k' k : Str) (v : OptVal) :
    lookupKey (out ++ [(k', v)]) k =
      optOr (lookupKey out k) (if k' = k then some v else none) := by
  induction out with
  | nil => simp [lookupKey, optOr]
  | cons kv rest ih =>
      obtain ⟨k0, v0⟩ := kv
      by_cases h : k0 = k
      · simp [lookupKey, h, optOr]
      · simp only [List.cons_append, lookupKey, h, if_false]
        exact ih

theorem lookupKey_mergeInsert (out : OptMap) (k0 k : Str) (v0 : OptVal) :
    lookupKey (mergeInsert out k0 v0) k =
      optOr (lookupKey out k) (if k0 = k then some v0 else none) := by
  unfold mergeInsert
  by_cases h : (lookupKey out k0).isSome
  · simp only [h, if_true]
    by_cases hk : k0 = k
    · subst hk
      obtain ⟨w, hw⟩ := Option.isSome_iff_exists.mp h
      simp [hw, optOr]
    · simp [hk, optOr_none]
  · simp only [h, if_false]
    exact lookupKey_append_single out k0 k v0

theorem lookupKey_foldl_one (m : OptMap) :
    ∀ (out : OptMap) (k : Str),
      lookupKey (m.foldl (fun o kv => mergeInsert o kv.1 kv.2) out) k =
        optOr (lookupKey out k) (lookupKey m k) := by
  induction m with
  | nil => intro out k; simp [lookupKey, optOr_none]
  | cons kv rest ih =>
      intro out k
      obtain ⟨k0, v0⟩ := kv
      simp only [List.foldl_cons, ih, lookupKey_mergeInsert, optOr_assoc, lookupKey]
      by_cases h : k0 = k
      · simp [h, optOr]
      · simp [h, optOr]

theorem lookupKey_foldl_maps (maps : List OptMap) :
    ∀ (out : OptMap) (k : Str),
      lookupKey
          (maps.foldl (fun out m => m.foldl (fun o kv => mergeInsert o kv.1 kv.2) out) out) k =
        optOr (lookupKey out k) (firstDefined maps k) := by
  induction maps with
  | nil => intro out k; simp [firstDefined, optOr_none]
  | cons m rest ih =>
      intro out k
      simp only [List.foldl_cons, ih, lookupKey_foldl_one, optOr_assoc, firstDefined]

theorem mergeInsert_ne_nil (out : OptMap) (k : Str) (v : OptVal) :
    mergeInsert out k v ≠ [] := by
  unfold mergeInsert
  by_cases h : (lookupKey out k).isSome
  · intro hc
    rw [if_pos h] at hc
    subst hc
    simp [lookupKey] at h
  · simp [h]

theorem foldl_one_nil_iff (m : OptMap) :
    ∀ out : OptMap, m.foldl (fun o kv => mergeInsert o kv.1 kv.2) out = [] ↔
      out = [] ∧ m = [] := by
  induction m with
  | nil => intro out; simp
  | cons kv rest ih =>
      intro out
      simp only [List.foldl_cons, ih]
      constructor
      · rintro ⟨h1, -⟩
        exact absurd h1 (mergeInsert_ne_nil out kv.1 kv.2)
      · rintro ⟨-, h⟩
        exact absurd h (by simp)

theorem foldl_maps_nil_iff (maps : List OptMap) :
    ∀ out : OptMap,
      maps.foldl (fun out m => m.foldl (fun o kv => mergeInsert o kv.1 kv.2) out) out = [] ↔
        out = [] ∧ ∀ m ∈ maps, m = [] := by
  induction maps with
  | nil => intro out; simp
  | cons m rest ih =>
      intro out
      simp only [List.foldl_cons, ih, foldl_one_nil_iff]
      constructor
      · rintro ⟨⟨h1, h2⟩, h3⟩
        refine ⟨h1, ?_⟩
        intro m' hm'
        rcases List.mem_cons.mp hm' with h | h
        · exact h.trans h2
        · exact h3 m' h
      · rintro ⟨h1, h2⟩
        exact ⟨⟨h1, h2 m (List.mem_cons_self m rest)⟩,
          fun m' hm' => h2 m' (List.mem_cons_of_mem m hm')⟩

/-- Claim **C3.**  `mergeOptions` maps every key to the value supplied by the
earliest source that defines it (later sources supplying the same key are
ignored); the result is absent (`nil`) exactly when no source contributes
any key; and on the claim's example — declared options
`deprecated ↦ true` merged with extension options `deprecated ↦ false,
owner ↦ "x"` — the result is `deprecated ↦ true, owner ↦ "x"`. -/
theorem c3_merge_options :
    (∀ (maps : List OptMap) (k : Str),
        lookupKey ((mergeOptions maps).getD []) k = firstDefined maps k)
    ∧ (∀ maps : List OptMap, mergeOptions maps = none ↔ ∀ m ∈ maps, m = [])
    ∧ mergeOptions [[(str ("deprecated"), OptVal.boolV true)],
        [(str ("deprecated"), OptVal.boolV false), (str ("owner"), OptVal.strV (str ("x")))]] =
      some [(str ("deprecated"), OptVal.boolV true), (str ("owner"), OptVal.strV (str ("x")))] := by
  refine ⟨?_, ?_, by decide⟩
  · intro maps k
    unfold mergeOptions
    by_cases h :
        maps.foldl (fun out m => m.foldl (fun o kv => mergeInsert o kv.1 kv.2) out) [] = []
    · have hempty := (foldl_maps_nil_iff maps []).mp h
      have : firstDefined maps k = none := by
        clear h
        induction maps with
        | nil => rfl
        | cons m rest ih =>
            have hm : m = [] := hempty.2 m (by simp)
            subst hm
            simp only [firstDefined, lookupKey, optOr]
            exact ih ⟨rfl, fun m' hm' => hempty.2 m' (by simp [hm'])⟩
      simp [h, lookupKey, this]
    · have := lookupKey_foldl_maps maps [] k
      simp only [lookupKey, optOr] at this
      simp [h, this]
  · intro maps
    unfold mergeOptions
    by_cases h :
        maps.foldl (fun out m => m.foldl (fun o kv => mergeInsert o kv.1 kv.2) out) [] = []
    · simp only [h, if_true]
      have hempty := (foldl_maps_nil_iff maps []).mp h
      exact ⟨fun _ => hempty.2, fun _ => trivial⟩
    · simp only [h, if_false]
      constructor
      · intro hc; exact absurd hc (by simp)
      · intro hall
        exact absurd ((foldl_maps_nil_iff maps []).mpr ⟨rfl, hall⟩) h

/-- Witness for C3 at concrete inputs: both directions are exercised on the
two-source example and on the empty source list. -/
theorem c3_merge_options_witness :
    lookupKey ((mergeOptions [[(str ("a"), OptVal.boolV true)],
        [(str ("a"), OptVal.boolV false), (str ("b"), OptVal.strV (str ("x")))]]).getD [])
      (str ("b")) = some (OptVal.strV (str ("x")))
    ∧ mergeOptions ([[], []] : List OptMap) = none :=
  ⟨(c3_merge_options.1 _ _).trans (by decide),
    (c3_merge_options.2.1 [[], []]).mpr (by decide)⟩

/-! ## Claim C5: label resolution -/

/-- Claim **C5.**  `labelName` returns the empty label for a proto3 field without
the explicit-optional marker whose label is not repeated; returns
`"repeated"` for a repeated field; and under proto2 or for an
explicit-optional proto3 field returns the raw label token lowercased with
the `LABEL_` prefix removed. -/
theorem c5_label_name :
    ∀ (lbl : ProtoLabel) (p3 p3opt : Bool),
      (p3 = true → p3opt = false → ¬ lbl = ProtoLabel.lrepeated →
          labelName lbl p3 p3opt = [])
      ∧ labelName .lrepeated p3 p3opt = str ("repeated")
      ∧ ((p3 = false ∨ p3opt = true) →
          labelName lbl p3 p3opt =
            (match lbl with
             | .loptional => str ("optional")
             | .lrequired => str ("required")
             | .lrepeated => str ("repeated"))) := by
  intro lbl p3 p3opt
  cases lbl <;> cases p3 <;> cases p3opt <;>
    exact ⟨by decide, by decide, by decide⟩

/-- Witness for C5: the three cases at concrete inputs. -/
theorem c5_label_name_witness :
    labelName .loptional true false = []
    ∧ labelName .lrepeated true false = str ("repeated")
    ∧ labelName .lrequired false false = str ("required") :=
  ⟨(c5_label_name .loptional true false).1 rfl rfl (by decide),
    (c5_label_name .lrepeated true false).2.1,
    (c5_label_name .lrequired false false).2.2 (Or.inl rfl)⟩

/-! ## Claim C4: map detection -/

/-- Claim **C4.**  A parsed field has `IsMap = true` exactly when its label is
`"repeated"`, its long type contains a dot, and all three type-name variants
end with the map-entry suffix `Entry`; the synthesized map-entry example is
flagged and the otherwise identical non-`Entry` field is not. -/
theorem c4_ismap :
    (∀ (pf : FieldDescriptor) (oneofs : List Str),
        (parseMessageField pf oneofs).isMap = true ↔
          ((parseMessageField pf oneofs).label = str ("repeated")
            ∧ strContains (parseMessageField pf oneofs).longType (str (".")) = true
            ∧ (str ("Entry")).isSuffixOf (parseMessageField pf oneofs).type = true
            ∧ (str ("Entry")).isSuffixOf (parseMessageField pf oneofs).longType = true
            ∧ (str ("Entry")).isSuffixOf (parseMessageField pf oneofs).fullType = true))
    ∧ (parseMessageField mapEntryField []).isMap = true
    ∧ (parseMessageField plainRepeatedField []).isMap = false := by
  refine ⟨?_, by decide, by decide⟩
  intro pf oneofs
  unfold parseMessageField
  dsimp only
  split
  · rename_i h
    simpa using h
  · rename_i h
    simpa using h

/-! ## Claim C6: the name-triple relation (corrected) -/

/-- Claim **C6, counterexample.**  For the resolved type of a scalar field the
claimed relation `full = P ++ "." ++ long` fails: both the long and the full
type are the bare token `int32`, and there is no leading separator whose
normalization could bridge the difference. -/
theorem c6_counterexample :
    (parseMessageField scalarCountField []).longType = str ("int32")
    ∧ (parseMessageField scalarCountField []).fullType = str ("int32")
    ∧ ¬ (parseMessageField scalarCountField []).fullType =
        scalarCountField.pkg ++ str (".") ++ (parseMessageField scalarCountField []).longType := by
  decide

theorem isPrefixOf_append_drop {p s : Str} (h : p.isPrefixOf s = true) :
    p ++ s.drop p.length = s := by
  have hp : p <+: s := List.isPrefixOf_iff_prefix.mp h
  obtain ⟨r, hr⟩ := hp
  subst hr
  rw [List.drop_left]

/-- Claim **C6, amended.**  The full name is the fully-qualified name with only
the leading dot stripped, and the long name is the full name with the
package prefix stripped when that prefix is present; consequently
`full = P ++ "." ++ long` holds whenever the fully-qualified name carries
the file's package as a prefix (in particular for same-package message and
enum types), but not in general: scalar types use the bare lowercase token
for all three names, and a cross-package reference keeps its own package in
the long name.  The same holds for the request and response types of
service methods. -/
theorem c6_amended :
    (∀ (typeName pkg : Str) (t : ProtoType),
        ((str (".")).isPrefixOf typeName = true →
          (parseType typeName pkg t).2.2 = trimPref typeName (str ("."))
          ∧ (parseType typeName pkg t).2.1 =
              trimPref (parseType typeName pkg t).2.2 (pkg ++ str ("."))
          ∧ ((pkg ++ str (".")).isPrefixOf ((parseType typeName pkg t).2.2) = true →
              (parseType typeName pkg t).2.2 =
                pkg ++ str (".") ++ (parseType typeName pkg t).2.1))
        ∧ ((str (".")).isPrefixOf typeName = false →
          (parseType typeName pkg t).1 = (parseType typeName pkg t).2.1
          ∧ (parseType typeName pkg t).2.1 = (parseType typeName pkg t).2.2))
    ∧ (∀ pm : MethodDescriptor,
        ((str (".") ++ pm.pkg ++ str (".")).isPrefixOf pm.inputType = true →
          (parseServiceMethod pm).requestFullType =
            pm.pkg ++ str (".") ++ (parseServiceMethod pm).requestLongType)
        ∧ ((str (".") ++ pm.pkg ++ str (".")).isPrefixOf pm.outputType = true →
          (parseServiceMethod pm).responseFullType =
            pm.pkg ++ str (".") ++ (parseServiceMethod pm).responseLongType)) := by
  constructor
  · intro typeName pkg t
    constructor
    · intro h
      unfold parseType
      simp only [h, if_true]
      refine ⟨trivial, trivial, ?_⟩
      intro h2
      generalize trimPref typeName (str (".")) = s at h2 ⊢
      unfold trimPref
      simp only [h2, if_true]
      conv_lhs => rw [← isPrefixOf_append_drop h2]
    · intro h
      unfold parseType
      simp [h]
  · intro pm
    constructor
    · intro h
      have hdot : (str (".")).isPrefixOf pm.inputType = true := by
        have h1 : str (".") <+: str (".") ++ pm.pkg ++ str (".") := by
          rw [List.append_assoc]; exact List.prefix_append _ _
        exact List.isPrefixOf_iff_prefix.mpr
          (h1.trans (List.isPrefixOf_iff_prefix.mp h))
      have hsplit := isPrefixOf_append_drop h
      show trimPref pm.inputType (str (".")) =
        pm.pkg ++ str (".") ++ trimPref pm.inputType (str (".") ++ pm.pkg ++ str ("."))
      unfold trimPref
      simp only [h, hdot, if_true]
      conv_lhs => rw [← hsplit]
      rw [List.append_assoc, List.append_assoc, List.drop_left]
      simp only [List.append_assoc]
    · intro h
      have hdot : (str (".")).isPrefixOf pm.outputType = true := by
        have h1 : str (".") <+: str (".") ++ pm.pkg ++ str (".") := by
          rw [List.append_assoc]; exact List.prefix_append _ _
        exact List.isPrefixOf_iff_prefix.mpr
          (h1.trans (List.isPrefixOf_iff_prefix.mp h))
      have hsplit := isPrefixOf_append_drop h
      show trimPref pm.outputType (str (".")) =
        pm.pkg ++ str (".") ++ trimPref pm.outputType (str (".") ++ pm.pkg ++ str ("."))
      unfold trimPref
      simp only [h, hdot, if_true]
      conv_lhs => rw [← hsplit]
      rw [List.append_assoc, List.append_assoc, List.drop_left]
      simp only [List.append_assoc]

/-- Witness for C6 (amended) at concrete inputs: a same-package message
type, a scalar type, and a method whose types live in the file's package. -/
theorem c6_amended_witness :
    (parseType (str (".pkg.Msg")) (str ("pkg")) .tmessage).2.2 =
      str ("pkg") ++ str (".") ++ (parseType (str (".pkg.Msg")) (str ("pkg")) .tmessage).2.1
    ∧ (parseType [] (str ("pkg")) .tint32).1 = (parseType [] (str ("pkg")) .tint32).2.2
    ∧ (parseServiceMethod methodTypesEx).requestFullType =
        methodTypesEx.pkg ++ str (".") ++ (parseServiceMethod methodTypesEx).requestLongType := by
  refine ⟨((c6_amended.1 (str (".pkg.Msg")) (str ("pkg")) .tmessage).1 (by decide)).2.2
      (by decide), ?_, (c6_amended.2 methodTypesEx).1 (by decide)⟩
  have h := (c6_amended.1 [] (str ("pkg")) .tint32).2 (by decide)
  exact h.1.trans h.2

/-! ## Claim C2: directive caching (corrected) -/

/-- Claim **C2, counterexample.**  `Exclude` is not cached: on a description that
is exactly the tag, the first call returns `true` (and strips the tag), and
a repeated call on the resulting directive returns `false` — the repeated
call does not return the same value as the first. -/
theorem c2_counterexample :
    (((⟨str ("@exclude"), [], [], []⟩ : Directive)).Exclude).1 = true
    ∧ ((((⟨str ("@exclude"), [], [], []⟩ : Directive)).Exclude).2.Exclude).1 = false := by
  decide

theorem title_state_cache (d : Directive) : (d.Title).2.title = (d.Title).1 := by
  unfold Directive.Title
  split
  · rfl
  · split <;> rfl

theorem title_cached_call (d : Directive) (h : d.title ≠ []) : d.Title = (d.title, d) := by
  unfold Directive.Title
  rw [if_pos h]

theorem action_state_cache (d : Directive) : (d.Action).2.action = (d.Action).1 := by
  unfold Directive.Action
  split
  · rfl
  · split <;> rfl

theorem action_cached_call (d : Directive) (h : d.action ≠ []) : d.Action = (d.action, d) := by
  unfold Directive.Action
  rw [if_pos h]

theorem version_state_cache (d : Directive) : (d.Version).2.version = (d.Version).1 := by
  unfold Directive.Version
  split
  · rfl
  · split <;> rfl

theorem version_cached_call (d : Directive) (h : d.version ≠ []) :
    d.Version = (d.version, d) := by
  unfold Directive.Version
  rw [if_pos h]

/-- Claim **C2, amended.**  Only `Title`, `Action` and `Version` cache, and only
non-empty values: once a call returns a non-empty value, a repeated call to
the same accessor returns that same value and leaves the directive (in
particular the shared description) unchanged.  `Exclude` has no cache at
all: it re-scans on every call, and a repeated call can return a different
value (see the counterexample). -/
theorem c2_amended :
    ∀ d : Directive,
      ((d.Title).1 ≠ [] → (d.Title).2.Title = ((d.Title).1, (d.Title).2))
      ∧ ((d.Action).1 ≠ [] → (d.Action).2.Action = ((d.Action).1, (d.Action).2))
      ∧ ((d.Version).1 ≠ [] → (d.Version).2.Version = ((d.Version).1, (d.Version).2)) := by
  intro d
  refine ⟨?_, ?_, ?_⟩
  · intro h
    have hs := title_state_cache d
    have := title_cached_call (d.Title).2 (by rw [hs]; exact h)
    rw [this, hs]
  · intro h
    have hs := action_state_cache d
    have := action_cached_call (d.Action).2 (by rw [hs]; exact h)
    rw [this, hs]
  · intro h
    have hs := version_state_cache d
    have := version_cached_call (d.Version).2 (by rw [hs]; exact h)
    rw [this, hs]

/-- Witness for C2 (amended): the three accessors at concrete directives
whose first call produces a non-empty value. -/
theorem c2_amended_witness :
    ((⟨str ("@title Foo"), [], [], []⟩ : Directive).Title).2.Title =
      (((⟨str ("@title Foo"), [], [], []⟩ : Directive).Title).1,
        ((⟨str ("@title Foo"), [], [], []⟩ : Directive).Title).2)
    ∧ ((⟨str ("@action Bar"), [], [], []⟩ : Directive).Action).2.Action =
      (((⟨str ("@action Bar"), [], [], []⟩ : Directive).Action).1,
        ((⟨str ("@action Bar"), [], [], []⟩ : Directive).Action).2)
    ∧ ((⟨str ("@version 1"), [], [], []⟩ : Directive).Version).2.Version =
      (((⟨str ("@version 1"), [], [], []⟩ : Directive).Version).1,
        ((⟨str ("@version 1"), [], [], []⟩ : Directive).Version).2) :=
  ⟨(c2_amended _).1 (by decide), (c2_amended _).2.1 (by decide),
    (c2_amended _).2.2 (by decide)⟩

/-! ## Claim C8: the directive round-trip -/

/-- Claim **C8.**  Directive extraction on `"Does X.\n@exclude\n@title Foo"`
yields `exclude = true`, `title = "Foo"`, and a cleaned description that
contains neither `@exclude` nor `@title` — both along the service path
(`Title` then `Exclude`) and along the method path (`Action`, `Version`,
`Title`, `Exclude`). -/
theorem c8_directive_roundtrip :
    (parseService roundtripService).exclude = true
    ∧ (parseService roundtripService).title = str ("Foo")
    ∧ strContains (parseService roundtripService).description (str ("@exclude")) = false
    ∧ strContains (parseService roundtripService).description (str ("@title")) = false
    ∧ (parseServiceMethod roundtripMethod).exclude = true
    ∧ (parseServiceMethod roundtripMethod).title = str ("Foo")
    ∧ strContains (parseServiceMethod roundtripMethod).description (str ("@exclude")) = false
    ∧ strContains (parseServiceMethod roundtripMethod).description (str ("@title")) = false := by
  decide

/-! ## Claim C9: the scalar-table soft failure -/

/-- Claim **C9.**  `NewTemplate` is total in the scalar-resource outcome: the
files are produced identically whatever the outcome; on a read or decode
failure the error goes to the diagnostic channel and the `Scalars` table is
absent (`nil`). -/
theorem c9_scalars_soft_failure :
    ∀ (descs : List FileDescriptor) (res : ScalarResource),
      (NewTemplate descs res).files = descs.map buildFile
      ∧ ((res = .fetchErr ∨ res = .decodeErr) →
          (NewTemplate descs res).scalars = none ∧ scalarDiagnostic res = true)
      ∧ (∀ tbl : List ScalarValue,
          (NewTemplate descs res).files = (NewTemplate descs (.ok tbl)).files) := by
  intro descs res
  refine ⟨rfl, ?_, fun tbl => rfl⟩
  rintro (h | h) <;> subst h <;> exact ⟨rfl, rfl⟩

/-- Witness for C9 at a concrete input: an unreadable resource. -/
theorem c9_scalars_soft_failure_witness :
    (NewTemplate [] .fetchErr).scalars = none ∧ scalarDiagnostic .fetchErr = true :=
  (c9_scalars_soft_failure [] .fetchErr).2.1 (Or.inl rfl)

/-! ## Claim C7: the tree walker flattens depth-first -/

mutual

theorem walkMessage_spec (m : MsgDescriptor) :
    (walkMessage m).1 = (msgPreorder m).map parseMessage
    ∧ (walkMessage m).2 =
        ((msgPreorder m).map (fun d => d.enums.map parseEnum)).flatten := by
  cases m with
  | mk n ln fn cm fs exts oo dep oe ens msgs =>
      have ih := walkMessages_spec msgs
      simp [walkMessage, msgPreorder, ih.1, ih.2, MsgDescriptor.enums]

theorem walkMessages_spec (ms : List MsgDescriptor) :
    (walkMessages ms).1 = (msgPreorderList ms).map parseMessage
    ∧ (walkMessages ms).2 =
        ((msgPreorderList ms).map (fun d => d.enums.map parseEnum)).flatten := by
  cases ms with
  | nil => simp [walkMessages, msgPreorderList]
  | cons m rest =>
      have ih1 := walkMessage_spec m
      have ih2 := walkMessages_spec rest
      simp [walkMessages, msgPreorderList, ih1.1, ih1.2, ih2.1, ih2.2]

end

/-- Claim **C7.**  The traversal emits exactly one `Message` record per message
descriptor and one `Enum` record per directly nested enum, in depth-first,
parent-before-children, declaration order (it is the map of the parsers over
the preorder of the tree); and a message nested two levels deep lands in the
owning file's flat `Messages` collection — not inside its parent's record —
with `LongName` equal to `Outer.Inner`. -/
theorem c7_tree_walk :
    (∀ ms : List MsgDescriptor,
        (walkMessages ms).1 = (msgPreorderList ms).map parseMessage
        ∧ (walkMessages ms).2 =
            ((msgPreorderList ms).map (fun d => d.enums.map parseEnum)).flatten
        ∧ (walkMessages ms).1.length = (msgPreorderList ms).length)
    ∧ (buildFile nestedFileEx).messages.map Message.longName =
        [str ("Outer"), str ("Outer.Inner")]
    ∧ (buildFile nestedFileEx).messages.length = 2 := by
  refine ⟨?_, by decide, by decide⟩
  intro ms
  have h := walkMessages_spec ms
  exact ⟨h.1, h.2, by rw [h.1, List.length_map]⟩

/-! ## Claim C10: comment cleaning and fenced JSON re-indentation -/

theorem indentLoop_exit_none {btag etag comment : Str} (fuel : Nat) (origin res : Str)
    (h : firstIdx comment btag = none) :
    indentLoop btag etag (fuel + 1) origin res comment =
      if res = [] then comment else res ++ comment := by
  unfold indentLoop
  rw [h]

theorem indentLoop_exit_zero {btag etag comment : Str} (fuel : Nat) (origin res : Str)
    (h : firstIdx comment btag = some 0) :
    indentLoop btag etag (fuel + 1) origin res comment =
      if res = [] then comment else res ++ comment := by
  unfold indentLoop
  rw [h]
  exact rfl

theorem indentLoop_noclose {btag etag comment : Str} (fuel : Nat) (origin res : Str)
    {i : Nat} (h : firstIdx comment btag = some i) (hi : 0 < i)
    (he : firstIdx (comment.drop (i + btag.length)) etag = none) :
    indentLoop btag etag (fuel + 1) origin res comment = origin := by
  unfold indentLoop
  rw [h]
  simp only [hi, if_true, he]

theorem indentLoop_iter {btag etag comment : Str} (fuel : Nat) (origin res : Str)
    {i j : Nat} (h : firstIdx comment btag = some i) (hi : 0 < i)
    (he : firstIdx (comment.drop (i + btag.length)) etag = some j) :
    indentLoop btag etag (fuel + 1) origin res comment =
      indentLoop btag etag fuel origin
        (res ++ comment.take i ++ btag ++ str ("\n") ++
          IndentJson ((comment.drop (i + btag.length)).take j) ++ etag)
        ((comment.drop (i + btag.length)).drop (j + etag.length)) := by
  conv_lhs => unfold indentLoop
  rw [h]
  simp only [hi, if_true, he]

theorem firstIdx_cons_of_pos {c btag : Str} {i : Nat}
    (h : firstIdx c btag = some i) (hi : 0 < i) : ∃ ch rest, c = ch :: rest := by
  cases c with
  | nil =>
      unfold firstIdx firstIdxAux at h
      by_cases hb : btag = ([] : Str)
      · rw [if_pos hb] at h
        cases h
        exact absurd hi (by omega)
      · rw [if_neg hb] at h
        cases h
  | cons ch rest => exact ⟨ch, rest, rfl⟩

theorem dropWhile_head_not (p : Char → Bool) :
    ∀ l : Str, ∀ ch rest, l.dropWhile p = ch :: rest → p ch = false := by
  intro l
  induction l with
  | nil => intro ch rest h; cases h
  | cons c t ih =>
      intro ch rest h
      by_cases hc : p c = true
      · rw [List.dropWhile_cons_of_pos hc] at h
        exact ih ch rest h
      · rw [List.dropWhile_cons_of_neg hc] at h
        cases h
        exact eq_false_of_ne_true hc

/-- Claim **C10.**  `description` strips the maximal leading run of `*`, `/`,
newline and space characters and hands the rest to the fence rewriter with
the ```` ```json ````/```` ``` ```` tags; the fence rewriter returns the
whole comment unchanged when an opening fence has no closing fence, and
also when the first opening fence sits at index 0; a fenced segment with a
closing fence is replaced by the opening tag, an inserted newline, the
re-indented segment and the closing tag — where the segment is kept
verbatim when it is not valid JSON (`IndentJson` returns its input on a
decode error) and is replaced by the indented form when it is valid. -/
theorem c10_description_fences :
    (∀ c : Str, ∃ p r : Str, c = p ++ r
        ∧ (∀ ch ∈ p, commentTrimSet ch = true)
        ∧ (∀ ch rest, r = ch :: rest → commentTrimSet ch = false)
        ∧ description c = IndentJsonInComment r (str ("```json")) (str ("```")))
    ∧ (∀ (btag etag c : Str) (i : Nat),
        firstIdx c btag = some i → 0 < i →
        firstIdx (c.drop (i + btag.length)) etag = none →
        IndentJsonInComment c btag etag = c)
    ∧ (∀ (btag etag c : Str), firstIdx c btag = some 0 →
        IndentJsonInComment c btag etag = c)
    ∧ (∀ (btag etag c : Str) (i j : Nat),
        firstIdx c btag = some i → 0 < i →
        firstIdx (c.drop (i + btag.length)) etag = some j →
        firstIdx ((c.drop (i + btag.length)).drop (j + etag.length)) btag = none →
        IndentJsonInComment c btag etag =
          c.take i ++ btag ++ str ("\n") ++
            IndentJson ((c.drop (i + btag.length)).take j) ++ etag ++
            (c.drop (i + btag.length)).drop (j + etag.length))
    ∧ (∀ s : Str, jsonIndentCore s = none → IndentJson s = s)
    ∧ (∀ (s o : Str), jsonIndentCore s = some o → IndentJson s = o) := by
  refine ⟨?_, ?_, ?_, ?_, ?_, ?_⟩
  · intro c
    refine ⟨c.takeWhile commentTrimSet, c.dropWhile commentTrimSet,
      (List.takeWhile_append_dropWhile commentTrimSet c).symm, ?_, ?_, rfl⟩
    · intro ch hch
      exact List.mem_takeWhile_imp hch
    · intro ch rest h
      exact dropWhile_head_not commentTrimSet c ch rest h
  · intro btag etag c i h hi he
    unfold IndentJsonInComment
    exact indentLoop_noclose c.length c [] h hi he
  · intro btag etag c h
    unfold IndentJsonInComment
    rw [indentLoop_exit_zero c.length c [] h]
    simp
  · intro btag etag c i j h hi he hr
    unfold IndentJsonInComment
    rw [indentLoop_iter c.length c [] h hi he]
    obtain ⟨ch, rest, hc⟩ := firstIdx_cons_of_pos h hi
    have hlen : c.length = rest.length + 1 := by rw [hc]; rfl
    rw [hlen, indentLoop_exit_none rest.length c _ hr]
    have hne : ¬ ([] ++ c.take i ++ btag ++ str ("\n") ++
        IndentJson ((c.drop (i + btag.length)).take j) ++ etag) = ([] : Str) := by
      simp [str]
    rw [if_neg hne]
    simp only [List.nil_append]
  · intro s h
    unfold IndentJson
    rw [h]
  · intro s o h
    unfold IndentJson
    rw [h]

/-- Witness for C10 at concrete comments: a leading-junk comment without
fences, an unclosed fence, a fence at index 0, a closed fence holding
invalid JSON (kept verbatim after the inserted newline), and a closed fence
holding valid JSON (re-indented). -/
theorem c10_description_fences_witness :
    IndentJsonInComment (str ("a```json b")) (str ("```json")) (str ("```")) =
      str ("a```json b")
    ∧ IndentJsonInComment (str ("```json x")) (str ("```json")) (str ("```")) =
      str ("```json x")
    ∧ IndentJsonInComment (str ("a```jsonW```z")) (str ("```json")) (str ("```")) =
      (str ("a```jsonW```z")).take 1 ++ str ("```json") ++ str ("\n") ++
        IndentJson (((str ("a```jsonW```z")).drop (1 + (str ("```json")).length)).take 1) ++
        str ("```") ++
        ((str ("a```jsonW```z")).drop (1 + (str ("```json")).length)).drop
          (1 + (str ("```")).length)
    ∧ IndentJson (str ("W")) = str ("W")
    ∧ IndentJson (str ("[1, 2]")) = str ("[\n  1,\n  2\n]") :=
  ⟨c10_description_fences.2.1 _ _ _ 1 (by decide) (by decide) (by decide),
    c10_description_fences.2.2.1 _ _ _ (by decide),
    c10_description_fences.2.2.2.1 _ _ _ 1 1 (by decide) (by decide) (by decide) (by decide),
    c10_description_fences.2.2.2.2.1 _ (by decide),
    c10_description_fences.2.2.2.2.2 _ _ (by decide)⟩

/-! ## Claim C1: the four top-level collections (corrected) -/

theorem insGo_perm (key : α → Str) (x : α) :
    ∀ l : List α, List.Perm (insGo key x l) (x :: l) := by
  intro l
  induction l with
  | nil => exact List.Perm.refl _
  | cons y ys ih =>
      unfold insGo
      by_cases h : strLt (key x) (key y) = true
      · rw [if_pos h]
      · rw [if_neg h]
        exact (ih.cons y).trans (List.Perm.swap x y ys)

theorem insGo_sorted (key : α → Str) (x : α) :
    ∀ l : List α, sortedByKey key l → sortedByKey key (insGo key x l) := by
  intro l
  induction l with
  | nil =>
      intro _
      exact List.pairwise_cons.mpr ⟨by simp, List.Pairwise.nil⟩
  | cons y ys ih =>
      intro h
      obtain ⟨hy, hys⟩ := List.pairwise_cons.mp h
      unfold insGo
      by_cases hlt : strLt (key x) (key y) = true
      · rw [if_pos hlt]
        refine List.pairwise_cons.mpr ⟨?_, h⟩
        intro z hz
        rcases List.mem_cons.mp hz with rfl | hz'
        · exact strLt_asymm hlt
        · by_contra hzx
          have hzx' : strLt (key z) (key x) = true := by
            cases h2 : strLt (key z) (key x)
            · exact absurd h2 hzx
            · rfl
          have : strLt (key z) (key y) = true := strLt_trans hzx' hlt
          rw [hy z hz'] at this
          cases this
      · rw [if_neg hlt]
        refine List.pairwise_cons.mpr ⟨?_, ih hys⟩
        intro z hz
        have hz' : z ∈ x :: ys := (insGo_perm key x ys).mem_iff.mp hz
        rcases List.mem_cons.mp hz' with rfl | hz''
        · exact eq_false_of_ne_true hlt
        · exact hy z hz''

theorem insSortGo_sorted_aux (key : α → Str) :
    ∀ (l acc : List α), sortedByKey key acc →
      sortedByKey key (l.foldl (fun acc x => insGo key x acc) acc) := by
  intro l
  induction l with
  | nil => intro acc h; exact h
  | cons x rest ih =>
      intro acc h
      simp only [List.foldl_cons]
      exact ih _ (insGo_sorted key x acc h)

/-- The result of the modelled `sort.Sort` is sorted by the key. -/
theorem goSortBy_sorted (key : α → Str) (l : List α) :
    sortedByKey key (goSortBy key l) :=
  insSortGo_sorted_aux key (shellPass key l) [] List.Pairwise.nil

theorem cons_set_perm (a : α) :
    ∀ (t : List α) (q : Nat) (b : α), t[q]? = some b →
      List.Perm (b :: t.set q a) (a :: t) := by
  intro t
  induction t with
  | nil => intro q b h; simp at h
  | cons c t ih =>
      intro q b h
      cases q with
      | zero =>
          simp only [List.getElem?_cons_zero, Option.some_inj] at h
          obtain rfl : c = b := h
          show List.Perm (c :: a :: t) (a :: c :: t)
          exact List.Perm.swap a c t
      | succ q' =>
          simp only [List.getElem?_cons_succ] at h
          show List.Perm (b :: c :: t.set q' a) (a :: c :: t)
          exact ((List.Perm.swap c b (t.set q' a)).trans
            ((ih q' b h).cons c)).trans (List.Perm.swap a c t)

theorem set_set_swap_perm :
    ∀ (l : List α) (p q : Nat) (x y : α), p < q →
      l[p]? = some y → l[q]? = some x →
      List.Perm ((l.set q y).set p x) l := by
  intro l
  induction l with
  | nil => intro p q x y hpq hp hq; simp at hp
  | cons c t ih =>
      intro p q x y hpq hp hq
      cases p with
      | zero =>
          simp only [List.getElem?_cons_zero, Option.some_inj] at hp
          obtain rfl : c = y := hp
          cases q with
          | zero => omega
          | succ q' =>
              simp only [List.getElem?_cons_succ] at hq
              show List.Perm (x :: t.set q' c) (c :: t)
              exact cons_set_perm c t q' x hq
      | succ p' =>
          cases q with
          | zero => omega
          | succ q' =>
              simp only [List.getElem?_cons_succ] at hp hq
              show List.Perm (c :: (t.set q' y).set p' x) (c :: t)
              exact (ih p' q' x y (by omega) hp hq).cons c

theorem swapStep_perm (key : α → Str) (l : List α) (i : Nat) (hi : 6 ≤ i) :
    List.Perm (swapStep key l i) l := by
  unfold swapStep
  cases hx : l[i]? with
  | none => exact List.Perm.refl l
  | some x =>
      cases hy : l[i - 6]? with
      | none => exact List.Perm.refl l
      | some y =>
          dsimp only
          by_cases hlt : strLt (key x) (key y) = true
          · rw [if_pos hlt]
            exact set_set_swap_perm l (i - 6) i x y (by omega) hy hx
          · rw [if_neg hlt]

theorem foldl_swapStep_perm (key : α → Str) :
    ∀ (idxs : List Nat) (l : List α), (∀ i ∈ idxs, 6 ≤ i) →
      List.Perm (idxs.foldl (swapStep key) l) l := by
  intro idxs
  induction idxs with
  | nil => intro l _; exact List.Perm.refl l
  | cons i rest ih =>
      intro l hall
      simp only [List.foldl_cons]
      exact (ih (swapStep key l i) (fun j hj => hall j (List.mem_cons_of_mem i hj))).trans
        (swapStep_perm key l i (hall i (List.mem_cons_self i rest)))

theorem shellPass_perm (key : α → Str) (l : List α) :
    List.Perm (shellPass key l) l := by
  unfold shellPass
  refine foldl_swapStep_perm key _ l ?_
  intro i hi
  exact (List.mem_range'_1.mp hi).1

theorem insSortGo_perm_aux (key : α → Str) :
    ∀ (l acc : List α),
      List.Perm (l.foldl (fun acc x => insGo key x acc) acc) (acc ++ l) := by
  intro l
  induction l with
  | nil => intro acc; simp
  | cons x rest ih =>
      intro acc
      simp only [List.foldl_cons]
      exact ((ih (insGo key x acc)).trans
        (((insGo_perm key x acc).append_right rest).trans List.perm_middle.symm))

/-- The result of the modelled `sort.Sort` is a permutation of its input. -/
theorem goSortBy_perm (key : α → Str) (l : List α) :
    List.Perm (goSortBy key l) l := by
  unfold goSortBy insSortGo
  exact ((insSortGo_perm_aux key (shellPass key l) []).trans
    (by simp : List.Perm ([] ++ shellPass key l) (shellPass key l))).trans
    (shellPass_perm key l)

/-- Claim **C1, counterexample.**  Entries with equal `LongName` do not remain in
discovery order: in a file declaring seven messages `C, A1, Z1…Z4, A2`
where `A1` and `A2` share the long name `a`, the traversal discovers `A1`
before `A2`, yet the sorted collection lists `A2` before `A1` — the gap-6
shell pass of the modelled `sort.Sort` (Go ≤ 1.18, ranges of ≤ 12 elements)
carries `A2` past the equal-keyed `A1`. -/
theorem c1_counterexample :
    (walkMessages sortFileEx.messages).1.map Message.name =
      [str ("C"), str ("A1"), str ("Z1"), str ("Z2"), str ("Z3"), str ("Z4"), str ("A2")]
    ∧ (walkMessages sortFileEx.messages).1.map Message.longName =
      [str ("c"), str ("a"), str ("z1"), str ("z2"), str ("z3"), str ("z4"), str ("a")]
    ∧ (buildFile sortFileEx).messages.map Message.name =
      [str ("A2"), str ("A1"), str ("C"), str ("Z1"), str ("Z2"), str ("Z3"), str ("Z4")]
    ∧ (buildFile sortFileEx).messages.map Message.longName =
      [str ("a"), str ("a"), str ("c"), str ("z1"), str ("z2"), str ("z3"), str ("z4")] := by
  decide

/-- Claim **C1, amended.**  In every produced `File` the four top-level
collections are sorted non-decreasing by `LongName` under case-sensitive
lexicographic order and are permutations of the discovered entries — but
entries with equal `LongName` need not remain in discovery order, because
`sort.Sort` is not stable.  The sequences of fields within a message,
values within an enum, and methods within a service are exactly the
descriptor's declaration order (never sorted). -/
theorem c1_amended :
    ∀ f : FileDescriptor,
      sortedByKey Enum.longName (buildFile f).enums
      ∧ sortedByKey FileExtension.longName (buildFile f).extensions
      ∧ sortedByKey Message.longName (buildFile f).messages
      ∧ sortedByKey Service.longName (buildFile f).services
      ∧ List.Perm (buildFile f).enums
          (f.enums.map parseEnum ++ (walkMessages f.messages).2)
      ∧ List.Perm (buildFile f).extensions (f.extensions.map parseFileExtension)
      ∧ List.Perm (buildFile f).messages ((walkMessages f.messages).1)
      ∧ List.Perm (buildFile f).services (f.services.map parseService)
      ∧ (∀ m ∈ (buildFile f).messages, ∃ d ∈ msgPreorderList f.messages,
          m = parseMessage d
          ∧ m.fields = d.fields.map (fun pf => parseMessageField pf d.oneofDecls))
      ∧ (∀ e ∈ (buildFile f).enums, ∃ ed : EnumDescriptor,
          (ed ∈ f.enums ∨ ∃ d ∈ msgPreorderList f.messages, ed ∈ d.enums)
          ∧ e = parseEnum ed ∧ e.values = ed.values.map parseEnumValue)
      ∧ (∀ s ∈ (buildFile f).services, ∃ sd ∈ f.services,
          s = parseService sd ∧ s.methods = sd.methods.map parseServiceMethod) := by
  intro f
  refine ⟨goSortBy_sorted _ _, goSortBy_sorted _ _, goSortBy_sorted _ _,
    goSortBy_sorted _ _, goSortBy_perm _ _, goSortBy_perm _ _, goSortBy_perm _ _,
    goSortBy_perm _ _, ?_, ?_, ?_⟩
  · intro m hm
    have hm' : m ∈ (walkMessages f.messages).1 :=
      (goSortBy_perm Message.longName _).mem_iff.mp hm
    rw [(walkMessages_spec f.messages).1] at hm'
    obtain ⟨d, hd, hdm⟩ := List.mem_map.mp hm'
    exact ⟨d, hd, hdm.symm, by rw [← hdm]; rfl⟩
  · intro e he
    have he' : e ∈ f.enums.map parseEnum ++ (walkMessages f.messages).2 :=
      (goSortBy_perm Enum.longName _).mem_iff.mp he
    rcases List.mem_append.mp he' with h | h
    · obtain ⟨ed, hed, hede⟩ := List.mem_map.mp h
      exact ⟨ed, Or.inl hed, hede.symm, by rw [← hede]; rfl⟩
    · rw [(walkMessages_spec f.messages).2] at h
      rw [List.mem_flatten] at h
      obtain ⟨L, hL, heL⟩ := h
      obtain ⟨d, hd, hdL⟩ := List.mem_map.mp hL
      rw [← hdL] at heL
      obtain ⟨ed, hed, hede⟩ := List.mem_map.mp heL
      exact ⟨ed, Or.inr ⟨d, hd, hed⟩, hede.symm, by rw [← hede]; rfl⟩
  · intro s hs
    have hs' : s ∈ f.services.map parseService :=
      (goSortBy_perm Service.longName _).mem_iff.mp hs
    obtain ⟨sd, hsd, hsds⟩ := List.mem_map.mp hs'
    exact ⟨sd, hsd, hsds.symm, by rw [← hsds]; rfl⟩

/-- Witness for C1 (amended) at the concrete seven-message file: the sorted
collection is sorted and is a permutation of the discovery order, and the
record discovered for `C` is the parse of its descriptor with its field
list equal to the declaration order. -/
theorem c1_amended_witness :
    sortedByKey Message.longName (buildFile sortFileEx).messages
    ∧ List.Perm (buildFile sortFileEx).messages
        ((walkMessages sortFileEx.messages).1)
    ∧ ∃ d ∈ msgPreorderList sortFileEx.messages,
        parseMessage (sortMsg ("C") ("c")) = parseMessage d
        ∧ (parseMessage (sortMsg ("C") ("c"))).fields =
            d.fields.map (fun pf => parseMessageField pf d.oneofDecls) :=
  ⟨(c1_amended sortFileEx).2.2.1,
    (c1_amended sortFileEx).2.2.2.2.2.2.1,
    (c1_amended sortFileEx).2.2.2.2.2.2.2.2.1 (parseMessage (sortMsg ("C") ("c")))
      (by decide)⟩

end Gendoc
